import Mathlib

/-!
Verification development for the UE4SS-Build-Guide header tools
(`src/Tools/dump_converter.py` and `src/Tools/consolidator.py`).

Strings are embedded as `List Char` (Python `str`, ASCII portion).
A Python function that can raise is embedded as `Except Unit _`
(`Except.error ()` stands for an uncaught exception such as an
`AttributeError` from `re.search(...).group(1)` when the search failed);
a function that can return `None` (or another falsy value treated as
"ignore") is embedded with `Option`.
-/

/-- Python `\w` character class (ASCII fragment): letters, digits, underscore. -/
def wChar (c : Char) : Bool := c.isAlphanum || c = '_'

/-- Python `\s` character class (ASCII fragment). -/
def sChar (c : Char) : Bool :=
  c = ' ' || c = '\t' || c = '\n' || c = '\r' || c = '\x0b' || c = '\x0c'

/-- Character class `[\w<>*:]` of the field-line regexes in
`convert_struct_field` and `convert_line_to_field`. -/
def tChar (c : Char) : Bool := wChar c || c = '<' || c = '>' || c = '*' || c = ':'

/-- Character class `[0-9A-F]` under `re.IGNORECASE` (hex digit, any case). -/
def hChar (c : Char) : Bool :=
  c.isDigit || ('A' ≤ c && c ≤ 'F') || ('a' ≤ c && c ≤ 'f')

/-- Character class `[A-F0-9]` without flags (as used in `clean_name`). -/
def hexUpper (c : Char) : Bool := c.isDigit || ('A' ≤ c && c ≤ 'F')

/-- Membership of a string in a list of strings (Python `in` on a set of names). -/
def memb (x : List Char) : List (List Char) → Bool
  | [] => false
  | y :: ys => x == y || memb x ys

/-- Python substring test `needle in hay`. -/
def strContainsL (hay needle : List Char) : Bool :=
  hay.tails.any fun t => needle.isPrefixOf t

/-- The `HPPConverter.ignored_types` set (dump_converter.py lines 31-44). -/
def ignored_types : List (List Char) :=
  ["FPointerToUberGraphFrame".data,
   "TextureFilter".data,
   "ETimelineDirection".data,
   "ECollisionChannel".data,
   "FConnectionCallbackProxyOnSuccess".data,
   "FCheckGeoTrackingAvailabilityAsyncTaskBlueprintProxyOnSuccess".data,
   "TSoftClassPtr".data,
   "TSoftObjectPtr".data,
   "FJSONParserAsyncObjectToStringOnSuccess".data,
   "FBox".data,
   "FVector4".data,
   "FGuid".data]

/-- The `HPPConverter.type_mappings` dict (dump_converter.py lines 8-29),
in insertion order. -/
def type_mappings : List (List Char × List Char) :=
  [("bool".data, "bool".data),
   ("float".data, "float".data),
   ("int32".data, "int32_t".data),
   ("uint8".data, "uint8_t".data),
   ("uint16".data, "uint16_t".data),
   ("uint32".data, "uint32_t".data),
   ("uint64".data, "uint64_t".data),
   ("int8".data, "int8_t".data),
   ("int16".data, "int16_t".data),
   ("int64".data, "int64_t".data),
   ("FString".data, "RC::Unreal::FString".data),
   ("FName".data, "RC::Unreal::FName".data),
   ("FText".data, "RC::Unreal::FText".data),
   ("FVector".data, "RC::Unreal::FVector".data),
   ("FRotator".data, "RC::Unreal::FRotator".data),
   ("FTransform".data, "RC::Unreal::FTransform".data),
   ("FLinearColor".data, "RC::Unreal::FLinearColor".data),
   ("UStaticMesh*".data, "RC::Unreal::UStaticMesh*".data),
   ("AActor*".data, "RC::Unreal::AActor*".data),
   ("UObject*".data, "RC::Unreal::UObject*".data)]

/-- Exact-key lookup in the mapping table (Python dict lookup). -/
def lookupL (x : List Char) : List (List Char × List Char) → Option (List Char)
  | [] => none
  | (k, v) :: rest => if x == k then some v else lookupL x rest

/-- The guard `any(ignored in ue_type for ignored in self.ignored_types)`
(dump_converter.py line 127). -/
def containsIgnoredL (l : List Char) : Bool :=
  ignored_types.any fun ig => strContainsL l ig

/-- Maximal run of whitespace removed from the front (`\s+` consumption). -/
def dropWS : List Char → List Char
  | [] => []
  | c :: cs => if sChar c then dropWS cs else c :: cs

/-- Python `re.sub(r'^class\s+', '', ue_type)` (dump_converter.py line 131):
removes a leading `class` keyword followed by at least one whitespace
character, together with the whole whitespace run. -/
def stripClass (l : List Char) : List Char :=
  if "class".data.isPrefixOf l then
    match l.drop 5 with
    | [] => l
    | c :: rest => if sChar c then dropWS (c :: rest) else l
  else l

/-- Python `ue_type.rstrip('*')`: drop every trailing `*`. -/
def rstripStar (l : List Char) : List Char :=
  (l.reverse.dropWhile (fun c => c == '*')).reverse

/-- The tuple test `ue_type.startswith(('UObject', 'AActor', 'UActorComponent'))`
(dump_converter.py lines 62 and 150). -/
def startsCore (l : List Char) : Bool :=
  "UObject".data.isPrefixOf l || "AActor".data.isPrefixOf l ||
    "UActorComponent".data.isPrefixOf l

/-- Everything before the last `'>'` of the list, when a `'>'` exists. -/
def beforeLastGt : List Char → Option (List Char)
  | [] => none
  | c :: cs =>
    match beforeLastGt cs with
    | some p => some (c :: p)
    | none => if c = '>' then some [] else none

/-- Result of Python `re.search(r'W<(.+)>', t).group(1)` on a token `t`
that starts with the wrapper `W<`, applied to `t` with the wrapper prefix
already dropped: the greedy `(.+)` captures everything up to the last `'>'`,
and the search fails (so `.group(1)` raises) when the captured part would be
empty or no closing `'>'` exists. -/
def takeToLastGt (rest : List Char) : Option (List Char) :=
  match beforeLastGt rest with
  | some (c :: p) => some (c :: p)
  | _ => none

/-- Python `endswith`. -/
def endsWithL (suffix l : List Char) : Bool :=
  suffix.reverse.isPrefixOf l.reverse

/-- First-character test used by `clean_class_name`. -/
def headIs (c : Char) (l : List Char) : Bool :=
  match l with
  | [] => false
  | x :: _ => x == c

/-- Digit-prefix fix of `clean_class_name` (dump_converter.py lines 66-67):
a name starting with a digit gets a leading `'C'`. -/
def digitFix (l : List Char) : List Char :=
  match l with
  | [] => []
  | c :: cs => if c.isDigit then 'C' :: c :: cs else c :: cs

/-- Python `name[1:-2]`: drop the first character and the last two. -/
def stripAU (l : List Char) : List Char := ((l.drop 1).dropLast).dropLast

/-- The game-class cleanup of `clean_class_name` (dump_converter.py lines 70-73):
an `A..._C` or `U..._C` name loses its first letter and `_C` suffix. -/
def auStrip (l : List Char) : List Char :=
  if headIs 'A' l && endsWithL "_C".data l then stripAU l
  else if headIs 'U' l && endsWithL "_C".data l then stripAU l
  else l

/-- `HPPConverter.clean_class_name` (dump_converter.py lines 56-75). -/
def clean_class_name (l : List Char) : List Char :=
  match l with
  | [] => []
  | _ :: _ => if startsCore l then l else auStrip (digitFix l)

/-- Recursion-depth-indexed body of `HPPConverter.convert_type`
(dump_converter.py lines 124-172).  The fuel only bounds the recursion into
generic wrapper arguments; `convert_type` below always supplies enough fuel
(the argument shrinks by at least 8 characters per recursive call).  The
final branch (lines 167-172) returns `clean_class_name ue_type` whether or
not the cleanup changed the name, exactly as the source does.
`Except.error ()` models the `AttributeError` raised by
`re.search(...).group(1)` when the wrapper search finds no match. -/
def convertTypeFuel : Nat → List Char → Except Unit (Option (List Char))
  | 0, _ => Except.error ()
  | fuel + 1, l =>
    if containsIgnoredL l then Except.ok none
    else
      let u := stripClass l
      if "TArray<".data.isPrefixOf u then
        match takeToLastGt (u.drop 7) with
        | none => Except.error ()
        | some inner =>
          match convertTypeFuel fuel inner with
          | Except.error e => Except.error e
          | Except.ok none => Except.ok none
          | Except.ok (some ci) =>
            Except.ok (some ("RC::Unreal::TArray<".data ++ ci ++ ['>']))
      else if "TSubclassOf<".data.isPrefixOf u then
        match takeToLastGt (u.drop 12) with
        | none => Except.error ()
        | some inner =>
          match convertTypeFuel fuel inner with
          | Except.error e => Except.error e
          | Except.ok none => Except.ok none
          | Except.ok (some ci) =>
            Except.ok (some ("RC::Unreal::TSubclassOf<".data ++ ci ++ ['>']))
      else if startsCore u then Except.ok (some u)
      else
        match lookupL u type_mappings with
        | some v => Except.ok (some v)
        | none =>
          match lookupL (rstripStar u) type_mappings with
          | some v => Except.ok (some (v ++ ['*']))
          | none =>
            if "TEnumAsByte<".data.isPrefixOf u then
              match takeToLastGt (u.drop 12) with
              | none => Except.error ()
              | some inner => Except.ok (some inner)
            else Except.ok (some (clean_class_name u))

/-- `HPPConverter.convert_type` (dump_converter.py lines 124-172).
`Except.ok none` is the "ignore this field" sentinel (Python `None`);
`Except.error ()` is an uncaught exception. -/
def convert_type (l : List Char) : Except Unit (Option (List Char)) :=
  convertTypeFuel (l.length + 1) l


/-- The shared field-line regex of `convert_struct_field` (line 111) and
`convert_line_to_field` (line 233):
`\s*([\w<>*:]+(?:\s*[*&])?)\s+(\w+);?\s*//\s*(0x[0-9A-F]+)` with
`re.IGNORECASE`, applied with `re.match` (anchored at the start, open at the
end).  The optional name suffix groups the optional name suffix groups (digits, then 32 hex) of
`convert_struct_field` are absorbed by the greedy `(\w+)` and change
nothing, so one matcher serves both.  Backtracking never helps this
pattern (every adjacent pair of sub-patterns has disjoint character sets),
so the greedy deterministic scan below is exact.  Returns
`(type token, name token, offset token)`. -/
def matchFieldLine (l : List Char) : Option (List Char × List Char × List Char) :=
  let l1 := l.dropWhile sChar
  let ty0 := l1.takeWhile tChar
  if ty0.isEmpty then none
  else
    let r1 := l1.drop ty0.length
    let ws := r1.takeWhile sChar
    let afterWs := r1.drop ws.length
    let pick : Option (List Char × List Char) :=
      match afterWs with
      | c :: rest => if c == '*' || c == '&' then some (ty0 ++ ws ++ [c], rest) else none
      | [] => none
    let tyr2 := match pick with
      | some p => p
      | none => (ty0, r1)
    let ty := tyr2.1
    let r2 := tyr2.2
    let ws2 := r2.takeWhile sChar
    if ws2.isEmpty then none
    else
      let r3 := r2.drop ws2.length
      let nm := r3.takeWhile wChar
      if nm.isEmpty then none
      else
        let r4 := r3.drop nm.length
        let r5 := match r4 with
          | ';' :: t => t
          | other => other
        let r6 := r5.dropWhile sChar
        match r6 with
        | '/' :: '/' :: r7 =>
          let r8 := r7.dropWhile sChar
          match r8 with
          | '0' :: c1 :: r9 =>
            if c1 == 'x' || c1 == 'X' then
              let hx := r9.takeWhile hChar
              if hx.isEmpty then none else some (ty, nm, '0' :: c1 :: hx)
            else none
          | _ => none
        | _ => none

/-- Earliest index at which the anchored pattern `_\d+$` matches, i.e. the
first `'_'` that is followed by a nonempty all-digit run reaching the end.
Also the earliest start of the digit part of the GUID-suffix pattern (underscore, digits, underscore, 32 hex, end) when
applied to the part before the GUID. -/
def firstUA : List Char → Option Nat
  | [] => none
  | '_' :: rest =>
    if !rest.isEmpty && rest.all Char.isDigit then some 0
    else (firstUA rest).map (· + 1)
  | _ :: rest => (firstUA rest).map (· + 1)

/-- Python the first GUID-suffix substitution of (clean_name, line 51):
the suffix must be an underscore, one or more digits, an underscore, and
exactly 32 uppercase-hex characters ending the string; the leftmost match
(largest digit run) is removed. -/
def guidStrip (n : List Char) : List Char :=
  if n.length < 35 then n
  else
    let pre := n.take (n.length - 33)
    let mid := n.drop (n.length - 33)
    match mid with
    | '_' :: hex =>
      if hex.all hexUpper then
        match firstUA pre with
        | some i => n.take i
        | none => n
      else n
    | _ => n

/-- Python `re.sub(r'_\d+$', '', name)` (clean_name, line 53). -/
def numStrip (n : List Char) : List Char :=
  match firstUA n with
  | some i => n.take i
  | none => n

/-- `HPPConverter.clean_name` (dump_converter.py lines 48-54): GUID suffix
first, numeric suffix second. -/
def clean_name (n : List Char) : List Char := numStrip (guidStrip n)

/-- The rendering the FIELD f-string of the source (offset, converted type, name). -/
def fieldRender (o ct n : List Char) : List Char :=
  "    FIELD(".data ++ o ++ ", ".data ++ ct ++ ", ".data ++ n ++ ");\n".data

/-- `HPPConverter.convert_line_to_field` (dump_converter.py lines 231-243).
The variable name is emitted verbatim; `if not converted_type` drops the
field both for the `None` sentinel and for an empty converted type. -/
def convert_line_to_field (line : List Char) : Except Unit (Option (List Char)) :=
  match matchFieldLine line with
  | none => Except.ok none
  | some (t, n, o) =>
    match convert_type t with
    | Except.error e => Except.error e
    | Except.ok none => Except.ok none
    | Except.ok (some ct) =>
      if ct.isEmpty then Except.ok none
      else Except.ok (some (fieldRender o ct n))

/-- `HPPConverter.convert_struct_field` (dump_converter.py lines 108-122):
like `convert_line_to_field` but the variable name goes through
`clean_name` before rendering. -/
def convert_struct_field (line : List Char) : Except Unit (Option (List Char)) :=
  match matchFieldLine line with
  | none => Except.ok none
  | some (t, n, o) =>
    match convert_type t with
    | Except.error e => Except.error e
    | Except.ok none => Except.ok none
    | Except.ok (some ct) =>
      if ct.isEmpty then Except.ok none
      else Except.ok (some (fieldRender o ct (clean_name n)))

/-- The per-line loop of `HPPConverter.process_struct_file`
(dump_converter.py lines 90-105).  `acc` accumulates emitted lines in
reverse.  An exception from `convert_struct_field` propagates. -/
def psfLoop (sn : List Char) : List (List Char) → Bool → List (List Char) →
    Except Unit (List (List Char))
  | [], _, acc => Except.ok acc.reverse
  | line :: rest, inStruct, acc =>
    if strContainsL line ("struct ".data ++ sn) then
      psfLoop sn rest true (("struct ".data ++ sn ++ " \x7b\n".data) :: acc)
    else if inStruct then
      if strContainsL line "\x7d;".data then
        Except.ok (("\x7d;\n\n".data :: acc)).reverse
      else if strContainsL line "//".data && strContainsL line "0x".data then
        match convert_struct_field line with
        | Except.error e => Except.error e
        | Except.ok none => psfLoop sn rest true acc
        | Except.ok (some fl) => psfLoop sn rest true (fl :: acc)
      else psfLoop sn rest true acc
    else psfLoop sn rest false acc

/-- `HPPConverter.process_struct_file` (dump_converter.py lines 78-106).
The sibling file is passed as `none` (file does not exist) or
`some lines` (its lines). -/
def process_struct_file (sn : List Char) (file : Option (List (List Char))) :
    Except Unit (List (List Char)) :=
  match file with
  | none => Except.ok []
  | some lines => psfLoop sn lines false []

/-- The caller guard `if struct_lines: output_lines.extend(struct_lines)`
(`convert_file`, dump_converter.py lines 199-201). -/
def convert_file_structs_step (out : List (List Char)) (ls : List (List Char)) :
    List (List Char) :=
  if ls.isEmpty then out else out ++ ls


/-- A pending class declaration of `HeaderConsolidator`: its cleaned name
(`self.classes` key), its body text, and its dependency name set
(`self.dependencies[name]`, consolidator.py line 112).  The two dicts are
always populated together, so one record per class suffices; list order is
dict insertion order. -/
structure CDecl where
  name : List Char
  content : List Char
  deps : List (List Char)
deriving DecidableEq

/-- `HeaderConsolidator.module_categories` (consolidator.py lines 21-28),
in insertion order. -/
def module_categories : List (List Char × List (List Char)) :=
  [("Gameplay".data, ["Character".data, "Player".data, "Game".data,
      "Save".data, "Inventory".data]),
   ("UI".data, ["HUD".data, "Menu".data, "Widget".data]),
   ("Props".data, ["Item".data, "Prop".data, "Container".data]),
   ("Systems".data, ["Day".data, "Night".data, "Weather".data, "Power".data]),
   ("Audio".data, ["Sound".data, "Music".data, "Voice".data]),
   ("Physics".data, ["Physics".data, "Collision".data])]

/-- Python `str.lower()` (ASCII fragment). -/
def lowerL (l : List Char) : List Char := l.map Char.toLower

/-- `HeaderConsolidator.determine_module` (consolidator.py lines 56-61):
first category whose keyword list has a case-insensitive substring hit in
the content; `'Game'` as default. -/
def determine_module (content : List Char) : List Char :=
  match module_categories.find?
      (fun p => p.2.any fun kw => strContainsL (lowerL content) (lowerL kw)) with
  | some p => p.1
  | none => "Game".data

/-- One scan of the `for class_name, deps in self.dependencies.items()` loop
(consolidator.py lines 165-173): return the first pending declaration whose
dependency set is contained in the processed-name set, together with the
remaining pool (original order kept). -/
def findFirstReady (processed : List (List Char)) :
    List CDecl → Option (CDecl × List CDecl)
  | [] => none
  | d :: rest =>
    if d.deps.all (fun n => memb n processed) then some (d, rest)
    else
      match findFirstReady processed rest with
      | some (e, rest') => some (e, d :: rest')
      | none => none

/-- Python string `<` comparison (lexicographic on code points),
as `sorted(self.classes.items())` uses it; names are unique so the
content component of the tuple never decides. -/
def lexLe : List Char → List Char → Bool
  | [], _ => true
  | _ :: _, [] => false
  | x :: xs, y :: ys => if x < y then true else if y < x then false else lexLe xs ys

/-- Insertion step of the name sort used for the deadlock flush. -/
def insertByName (d : CDecl) : List CDecl → List CDecl
  | [] => [d]
  | e :: es => if lexLe d.name e.name then d :: e :: es else e :: insertByName d es

/-- `sorted(self.classes.items())` of the deadlock branch
(consolidator.py line 176), keyed by name. -/
def sortByName : List CDecl → List CDecl
  | [] => []
  | d :: ds => insertByName d (sortByName ds)

/-- The `while self.classes:` scheduling loop of
`HeaderConsolidator.sort_declarations` (consolidator.py lines 163-179).
One fuel unit is one scan pass.  Each emitted declaration is recorded as
`(module it was appended under, declaration, emitted-in-normal-branch?)`;
the normal branch computes the module at line 169, the deadlock branch
recomputes it independently at line 177.  `none` means the fuel bound was
exceeded (never happens with `length + 1` passes, see the theorems). -/
def sortClassesAux : Nat → List CDecl → List (List Char) →
    Option (List (List Char × CDecl × Bool))
  | 0, _, _ => none
  | _ + 1, [], _ => some []
  | fuel + 1, p :: ps, processed =>
    match findFirstReady processed (p :: ps) with
    | some (d, rest) =>
      match sortClassesAux fuel rest (d.name :: processed) with
      | none => none
      | some out => some ((determine_module d.content, d, true) :: out)
    | none =>
      some ((sortByName (p :: ps)).map fun c => (determine_module c.content, c, false))

/-- The class-ordering part of `HeaderConsolidator.sort_declarations`
(consolidator.py lines 150-181), started with an empty processed set and
`N + 1` scan passes of fuel for `N` pending classes.  (Enums and structs
are appended to their fixed groups before this loop and are not subject to
ordering.) -/
def sort_declarations (classes : List CDecl) :
    Option (List (List Char × CDecl × Bool)) :=
  sortClassesAux (classes.length + 1) classes []

/-- Names of the normal-branch emissions among the first `i` trace entries:
the processed set accumulated when entry `i` is reached (beyond the initial
one). -/
def normalNamesBefore (out : List (List Char × CDecl × Bool)) (i : Nat) :
    List (List Char) :=
  (out.take i).filterMap fun e => if e.2.2 then some e.2.1.name else none

/-- Claim C9's asserted phenomenon, stated as a proposition: some run of
the scheduler emits some declaration in the deadlock branch (flag `false`)
under a category different from the one the normal branch's classifier
call (`determine_module` on the body text) would assign. -/
def deadlockCategoryDiffers : Prop :=
  ∃ (fuel : Nat) (pending : List CDecl) (processed : List (List Char))
    (out : List (List Char × CDecl × Bool)) (i : Nat) (m : List Char) (d : CDecl),
    sortClassesAux fuel pending processed = some out ∧
    out.get? i = some (m, d, false) ∧ m ≠ determine_module d.content


/-- Concrete two-declaration pool with a dependency edge, used to
exercise the scheduler. -/
def declB : CDecl := ⟨"B".data, "b body".data, []⟩

/-- Declaration depending on `declB`. -/
def declA : CDecl := ⟨"A".data, "a body".data, ["B".data]⟩

/-- Concrete cyclic pool member (depends on `declY`); its body mentions a
UI keyword. -/
def declX : CDecl := ⟨"X".data, "some Widget body".data, ["Y".data]⟩

/-- Concrete cyclic pool member (depends on `declX`); its body matches no
category keyword. -/
def declY : CDecl := ⟨"Y".data, "plain body".data, ["X".data]⟩

/-- First character is an ASCII digit (false for the empty name). -/
def firstIsDigit (l : List Char) : Bool :=
  match l with
  | [] => false
  | c :: _ => c.isDigit

/-- The example field line of the specification, with a numeric
disambiguation suffix and a 32-hex-character GUID suffix on the name. -/
def c3line : List Char :=
  "AActor* TargetActor_2_1A2B3C4D5E6F7890ABCDEF1234567890; // 0x0120".data

theorem memb_iff (x : List Char) : ∀ l, memb x l = true ↔ x ∈ l := by
  intro l
  induction l with
  | nil => simp [memb]
  | cons y ys ih => simp [memb, ih]

theorem findFirstReady_perm (processed : List (List Char)) :
    ∀ (pending : List CDecl) (d : CDecl) (rest : List CDecl),
      findFirstReady processed pending = some (d, rest) → pending.Perm (d :: rest) := by
  intro pending
  induction pending with
  | nil => intro d rest h; simp [findFirstReady] at h
  | cons p ps ih =>
    intro d rest h
    by_cases hp : p.deps.all (fun n => memb n processed) = true
    · simp [findFirstReady, hp] at h
      obtain ⟨rfl, rfl⟩ := h
      exact List.Perm.refl _
    · simp [findFirstReady, hp] at h
      cases hps : findFirstReady processed ps with
      | none => rw [hps] at h; simp at h
      | some er =>
        obtain ⟨e, rest'⟩ := er
        rw [hps] at h
        simp at h
        obtain ⟨rfl, rfl⟩ := h
        exact ((ih _ _ hps).cons p).trans (List.Perm.swap _ p rest')

theorem findFirstReady_ready (processed : List (List Char)) :
    ∀ (pending : List CDecl) (d : CDecl) (rest : List CDecl),
      findFirstReady processed pending = some (d, rest) →
      d.deps.all (fun n => memb n processed) = true := by
  intro pending
  induction pending with
  | nil => intro d rest h; simp [findFirstReady] at h
  | cons p ps ih =>
    intro d rest h
    by_cases hp : p.deps.all (fun n => memb n processed) = true
    · simp [findFirstReady, hp] at h
      obtain ⟨rfl, rfl⟩ := h
      exact hp
    · simp [findFirstReady, hp] at h
      cases hps : findFirstReady processed ps with
      | none => rw [hps] at h; simp at h
      | some er =>
        obtain ⟨e, rest'⟩ := er
        rw [hps] at h
        simp at h
        obtain ⟨rfl, rfl⟩ := h
        exact ih _ _ hps

theorem insertByName_perm (d : CDecl) : ∀ l, (insertByName d l).Perm (d :: l) := by
  intro l
  induction l with
  | nil => exact List.Perm.refl _
  | cons e es ih =>
    by_cases h : lexLe d.name e.name = true
    · simp [insertByName, h]
    · simp only [insertByName, h, if_neg, Bool.not_eq_true, ite_false]
      exact (ih.cons e).trans (List.Perm.swap d e es)

theorem sortByName_perm : ∀ l : List CDecl, (sortByName l).Perm l := by
  intro l
  induction l with
  | nil => exact List.Perm.refl _
  | cons d ds ih => exact (insertByName_perm d (sortByName ds)).trans (ih.cons d)

theorem sortAux_total :
    ∀ (fuel : Nat) (pending : List CDecl) (processed : List (List Char)),
      pending.length < fuel →
      ∃ out, sortClassesAux fuel pending processed = some out ∧
        (out.map fun e => e.2.1).Perm pending := by
  intro fuel
  induction fuel with
  | zero => intro pending processed h; exact absurd h (Nat.not_lt_zero _)
  | succ n ih =>
    intro pending processed h
    match pending with
    | [] => exact ⟨[], rfl, List.Perm.refl _⟩
    | p :: ps =>
      cases hf : findFirstReady processed (p :: ps) with
      | some dr =>
        obtain ⟨d, rest⟩ := dr
        have hperm := findFirstReady_perm processed (p :: ps) d rest hf
        have hlen : rest.length < n := by
          have hl := hperm.length_eq
          simp at hl
          simp at h
          omega
        obtain ⟨out, ho, hp⟩ := ih rest (d.name :: processed) hlen
        refine ⟨(determine_module d.content, d, true) :: out, ?_, ?_⟩
        · simp [sortClassesAux, hf, ho]
        · simpa using (hp.cons d).trans hperm.symm
      | none =>
        refine ⟨(sortByName (p :: ps)).map fun c => (determine_module c.content, c, false),
          by simp [sortClassesAux, hf], ?_⟩
        rw [List.map_map]
        rw [show ((fun (e : List Char × CDecl × Bool) => e.2.1) ∘
          fun c => (determine_module c.content, c, false)) = fun (c : CDecl) => c from rfl]
        rw [List.map_id']
        exact sortByName_perm (p :: ps)

/-- Claim C4: for every finite pool of pending class declarations —
including pools with dependency cycles or dangling dependency names —
`sort_declarations` terminates within `N + 1` scan passes
(`sortClassesAux` never runs out of its `length + 1` fuel), and the
emitted trace is a permutation of the pool: every pending declaration is
placed into an output group exactly once, none dropped, none duplicated. -/
theorem claim4_theorem :
    ∀ classes : List CDecl,
      ∃ out, sort_declarations classes = some out ∧
        (out.map fun e => e.2.1).Perm classes :=
  fun classes => sortAux_total (classes.length + 1) classes [] (Nat.lt_succ_self _)

/-- Claim C5: whenever `sortClassesAux` succeeds and its trace has a
normal-branch (non-deadlock) emission of declaration `d` at position `i`,
every dependency of `d` is already in the processed set at that moment:
it is either in the initial processed set or the name of a declaration
emitted by the normal branch strictly earlier in the trace.  With the
empty initial set `sort_declarations` starts from, a depended-on
declaration is therefore always emitted in an earlier pass than its
dependent. -/
theorem claim5_theorem :
    ∀ (fuel : Nat) (pending : List CDecl) (processed : List (List Char))
      (out : List (List Char × CDecl × Bool)),
      sortClassesAux fuel pending processed = some out →
      ∀ (i : Nat) (m : List Char) (d : CDecl),
        out.get? i = some (m, d, true) →
        ∀ dep, memb dep d.deps = true →
          memb dep processed = true ∨ memb dep (normalNamesBefore out i) = true := by
  intro fuel
  induction fuel with
  | zero =>
    intro pending processed out h
    simp [sortClassesAux] at h
  | succ n ih =>
    intro pending processed out h i m d hget dep hdep
    match pending with
    | [] =>
      simp [sortClassesAux] at h
      subst h
      simp at hget
    | p :: ps =>
      cases hf : findFirstReady processed (p :: ps) with
      | some dr =>
        obtain ⟨d0, rest⟩ := dr
        cases hrec : sortClassesAux n rest (d0.name :: processed) with
        | none => simp [sortClassesAux, hf, hrec] at h
        | some out' =>
          simp [sortClassesAux, hf, hrec] at h
          subst h
          cases i with
          | zero =>
            simp at hget
            obtain ⟨_, rfl, _⟩ := hget
            left
            have hready := findFirstReady_ready processed (p :: ps) _ _ hf
            exact List.all_eq_true.mp hready dep ((memb_iff dep _).mp hdep)
          | succ j =>
            have hget' : out'.get? j = some (m, d, true) := hget
            have hstep := ih rest (d0.name :: processed) out' hrec j m d hget' dep hdep
            cases hstep with
            | inl hl =>
              simp [memb] at hl
              cases hl with
              | inl he =>
                right
                simp [normalNamesBefore, memb, he]
              | inr hpr => left; exact hpr
            | inr hr =>
              right
              have : normalNamesBefore
                  ((determine_module d0.content, d0, true) :: out') (j + 1) =
                  d0.name :: normalNamesBefore out' j := by
                simp [normalNamesBefore]
              rw [this]
              simp [memb]
              right
              exact hr
      | none =>
        simp [sortClassesAux, hf] at h
        subst h
        rw [List.get?_map] at hget
        cases hs : (sortByName (p :: ps)).get? i with
        | none => rw [hs] at hget; simp at hget
        | some c => rw [hs] at hget; simp at hget

theorem sortModuleEq :
    ∀ (fuel : Nat) (pending : List CDecl) (processed : List (List Char))
      (out : List (List Char × CDecl × Bool)),
      sortClassesAux fuel pending processed = some out →
      ∀ (i : Nat) (m : List Char) (d : CDecl) (b : Bool),
        out.get? i = some (m, d, b) → m = determine_module d.content := by
  intro fuel
  induction fuel with
  | zero =>
    intro pending processed out h
    simp [sortClassesAux] at h
  | succ n ih =>
    intro pending processed out h i m d b hget
    match pending with
    | [] =>
      simp [sortClassesAux] at h
      subst h
      simp at hget
    | p :: ps =>
      cases hf : findFirstReady processed (p :: ps) with
      | some dr =>
        obtain ⟨d0, rest⟩ := dr
        cases hrec : sortClassesAux n rest (d0.name :: processed) with
        | none => simp [sortClassesAux, hf, hrec] at h
        | some out' =>
          simp [sortClassesAux, hf, hrec] at h
          subst h
          cases i with
          | zero =>
            simp at hget
            obtain ⟨rfl, rfl, _⟩ := hget
            rfl
          | succ j => exact ih rest (d0.name :: processed) out' hrec j m d b hget
      | none =>
        simp [sortClassesAux, hf] at h
        subst h
        rw [List.get?_map] at hget
        cases hs : (sortByName (p :: ps)).get? i with
        | none => rw [hs] at hget; simp at hget
        | some c =>
          rw [hs] at hget
          simp at hget
          obtain ⟨rfl, rfl, _⟩ := hget
          rfl

/-- Counterexample to claim C9: the asserted phenomenon never occurs.  No
run of the scheduler ever emits a declaration in the deadlock
(cycle-breaking) branch under a category different from the one the normal
branch would assign: although the two branches recompute the category
independently (consolidator.py lines 169 and 177), `determine_module` is a
pure function of the body text, so the results always coincide. -/
theorem claim9_counterexample : ¬ deadlockCategoryDiffers := by
  rintro ⟨fuel, pending, processed, out, i, m, d, hrun, hget, hne⟩
  exact hne (sortModuleEq fuel pending processed out hrun i m d false hget)

/-- Claim C9 (amended): the category recorded with every emitted trace
entry — whichever branch produced it — equals `determine_module` of that
declaration's body, so the deadlock branch always assigns exactly the
category the normal branch would have assigned. -/
theorem claim9_amended :
    ∀ (fuel : Nat) (pending : List CDecl) (processed : List (List Char))
      (out : List (List Char × CDecl × Bool)),
      sortClassesAux fuel pending processed = some out →
      ∀ (i : Nat) (m : List Char) (d : CDecl) (b : Bool),
        out.get? i = some (m, d, b) → m = determine_module d.content :=
  sortModuleEq

/-- Witness for C5 at a concrete pool: `declA` depends on `declB`; both are
emitted by the normal branch, and when `declA` is emitted (trace position 1)
the name of `declB` is already in the accumulated processed-name set. -/
theorem claim5_witness :
    memb "B".data [] = true ∨
      memb "B".data (normalNamesBefore
        [("Game".data, declB, true), ("Game".data, declA, true)] 1) = true :=
  claim5_theorem 3 [declB, declA] []
    [("Game".data, declB, true), ("Game".data, declA, true)] rfl
    1 "Game".data declA rfl "B".data rfl

/-- Witness for the amended C9 at a concrete cyclic pool: `declX` and
`declY` depend on each other, both are flushed by the deadlock branch, and
`declX` is assigned exactly `determine_module declX.content` (the category
`UI` its body keyword selects). -/
theorem claim9_witness : "UI".data = determine_module declX.content :=
  claim9_amended 3 [declX, declY] []
    [("UI".data, declX, false), ("Game".data, declY, false)] rfl
    0 "UI".data declX false rfl

theorem isPrefixOf_cons_cons (a b : Char) (as bs : List Char) :
    (a :: as).isPrefixOf (b :: bs) = ((a == b) && as.isPrefixOf bs) := rfl

theorem startsCore_head (c : Char) (cs : List Char)
    (h : startsCore (c :: cs) = true) : c = 'U' ∨ c = 'A' := by
  simp only [startsCore, Bool.or_eq_true] at h
  rcases h with (h | h) | h
  · have h2 : (('U' == c) && "Object".data.isPrefixOf cs) = true := h
    simp at h2
    exact Or.inl h2.1.symm
  · have h2 : (('A' == c) && "Actor".data.isPrefixOf cs) = true := h
    simp at h2
    exact Or.inr h2.1.symm
  · have h2 : (('U' == c) && "ActorComponent".data.isPrefixOf cs) = true := h
    simp at h2
    exact Or.inl h2.1.symm

theorem stripClass_fix (c : Char) (cs : List Char) (h : c ≠ 'c') :
    stripClass (c :: cs) = c :: cs := by
  unfold stripClass
  rw [if_neg]
  intro hpre
  have h2 : (('c' == c) && "lass".data.isPrefixOf cs) = true := hpre
  simp at h2
  exact h h2.1.symm

/-- Claim C6: a type token that contains any member of the ignore set as a
substring — however it is wrapped — is mapped to the ignore sentinel by
`convert_type` (the check is the first thing the function does), and a
field line whose matched type token contains an ignored name is dropped by
`convert_line_to_field`, so no field is ever emitted with that type. -/
theorem claim6_theorem :
    (∀ t ig : List Char, ig ∈ ignored_types → strContainsL t ig = true →
      convert_type t = Except.ok none) ∧
    (∀ line t n o : List Char, matchFieldLine line = some (t, n, o) →
      (∃ ig ∈ ignored_types, strContainsL t ig = true) →
      convert_line_to_field line = Except.ok none) := by
  have hmain : ∀ t ig : List Char, ig ∈ ignored_types → strContainsL t ig = true →
      convert_type t = Except.ok none := by
    intro t ig hmem hc
    have hign : containsIgnoredL t = true := by
      simp only [containsIgnoredL, List.any_eq_true]
      exact ⟨ig, hmem, hc⟩
    show convertTypeFuel (t.length + 1) t = Except.ok none
    unfold convertTypeFuel
    simp [hign]
  refine ⟨hmain, ?_⟩
  intro line t n o hline hex
  obtain ⟨ig, hmem, hc⟩ := hex
  have hok := hmain t ig hmem hc
  simp [convert_line_to_field, hline, hok]

/-- Witness for C6: the ignore set member `FBox` poisons the wrapped token
`TArray<FBox>`, and the field line `FBox B; // 0x10` is dropped. -/
theorem claim6_witness :
    convert_type "TArray<FBox>".data = Except.ok none ∧
      convert_line_to_field "FBox B; // 0x10".data = Except.ok none :=
  ⟨ claim6_theorem.1 "TArray<FBox>".data "FBox".data (by decide) (by decide),
   claim6_theorem.2 "FBox B; // 0x10".data "FBox".data "B".data "0x10".data rfl
     ⟨"FBox".data, by decide, by decide⟩⟩

/-- Claim C10: a token starting with one of the three engine-core prefixes,
with no ignore-set substring, is returned unchanged by `convert_type`:
the core-prefix branch fires before the mapping-table lookups, so the
`AActor*` and `UObject*` mapping entries can never be reached. -/
theorem claim10_theorem :
    ∀ l : List Char, startsCore l = true → containsIgnoredL l = false →
      convert_type l = Except.ok (some l) := by
  intro l hc hi
  match l with
  | [] => exact absurd hc (by decide)
  | c :: cs =>
    have hcu := startsCore_head c cs hc
    have hne : c ≠ 'c' := by rcases hcu with rfl | rfl <;> decide
    have hstrip : stripClass (c :: cs) = c :: cs := stripClass_fix c cs hne
    have hta : "TArray<".data.isPrefixOf (c :: cs) = false := by
      rcases hcu with rfl | rfl <;> rfl
    have hts : "TSubclassOf<".data.isPrefixOf (c :: cs) = false := by
      rcases hcu with rfl | rfl <;> rfl
    show convertTypeFuel ((c :: cs).length + 1) (c :: cs) =
      Except.ok (some (c :: cs))
    unfold convertTypeFuel
    simp [hi, hstrip, hta, hts, hc]

/-- Witness for C10 at `AActor*`: returned unchanged, even though the
mapping table holds a different value for exactly this key. -/
theorem claim10_witness :
    convert_type "AActor*".data = Except.ok (some "AActor*".data) ∧
      lookupL "AActor*".data type_mappings = some "RC::Unreal::AActor*".data :=
  ⟨ claim10_theorem "AActor*".data (by decide) (by decide), by decide⟩

/-- Counterexample to claim C1: `convert_type` is not total — on the token
`TArray<` (which the field-line pattern `[\w<>*:]+` can produce) the
wrapper branch runs `re.search(r'TArray<(.+)>', ...)`, the search finds no
match, and `.group(1)` raises an `AttributeError`. -/
theorem claim1_counterexample : convert_type "TArray<".data = Except.error () := rfl

/-- Claim C1 (amended): `convert_type` terminates on every input (the
embedding is structurally total), and it never raises provided the token,
after class-keyword stripping, does not start with one of the generic
wrapper prefixes `TArray<`, `TSubclassOf<`, `TEnumAsByte<` (only those
branches can raise, when the wrapper argument search fails); moreover a
token recognized by no rule at all passes through verbatim. -/
theorem claim1_amended :
    (∀ l : List Char,
      "TArray<".data.isPrefixOf (stripClass l) = false →
      "TSubclassOf<".data.isPrefixOf (stripClass l) = false →
      "TEnumAsByte<".data.isPrefixOf (stripClass l) = false →
      ∃ r, convert_type l = Except.ok r) ∧
    (∀ l : List Char,
      containsIgnoredL l = false →
      stripClass l = l →
      "TArray<".data.isPrefixOf l = false →
      "TSubclassOf<".data.isPrefixOf l = false →
      "TEnumAsByte<".data.isPrefixOf l = false →
      startsCore l = false →
      lookupL l type_mappings = none →
      lookupL (rstripStar l) type_mappings = none →
      clean_class_name l = l →
      convert_type l = Except.ok (some l)) := by
  constructor
  · intro l h1 h2 h3
    show ∃ r, convertTypeFuel (l.length + 1) l = Except.ok r
    unfold convertTypeFuel
    cases hi : containsIgnoredL l with
    | true => exact ⟨none, by simp [hi]⟩
    | false =>
      cases hcore : startsCore (stripClass l) with
      | true => exact ⟨some (stripClass l), by simp [hi, h1, h2, hcore]⟩
      | false =>
        cases hl1 : lookupL (stripClass l) type_mappings with
        | some v => exact ⟨some v, by simp [hi, h1, h2, hcore, hl1]⟩
        | none =>
          cases hl2 : lookupL (rstripStar (stripClass l)) type_mappings with
          | some v => exact ⟨some (v ++ ['*']), by simp [hi, h1, h2, hcore, hl1, hl2]⟩
          | none =>
            exact ⟨some (clean_class_name (stripClass l)),
              by simp [hi, h1, h2, h3, hcore, hl1, hl2]⟩
  · intro l hi hstr h1 h2 h3 hcore hl1 hl2 hcl
    show convertTypeFuel (l.length + 1) l = Except.ok (some l)
    unfold convertTypeFuel
    simp [hi, hstr, h1, h2, h3, hcore, hl1, hl2, hcl]

/-- Witness for the amended C1 at the unrecognized token `MyType`:
conversion returns a value, and that value is the token itself. -/
theorem claim1_witness :
    (∃ r, convert_type "MyType".data = Except.ok r) ∧
      convert_type "MyType".data = Except.ok (some "MyType".data) :=
  ⟨ claim1_amended.1 "MyType".data rfl rfl rfl,
   claim1_amended.2 "MyType".data (by decide) rfl rfl rfl rfl rfl rfl rfl rfl⟩

/-- Counterexample to claim C2: `clean_class_name` checks the leading
digit before stripping the `A..._C` shape, so `A1_C` is stripped to the
identifier `1`, which starts with a digit. -/
theorem claim2_counterexample :
    clean_class_name "A1_C".data = "1".data ∧ firstIsDigit "1".data = true :=
  ⟨rfl, rfl⟩

/-- Claim C2 (amended): `clean_class_name` never produces a digit-leading
identifier for inputs that are not of the `A..._C` / `U..._C` shape (for
those the strip step can expose a digit); and `convert_line_to_field`
performs no sanitization at all on the variable name — the emitted FIELD
line carries the matched name token verbatim, so its name avoids a leading
digit exactly when the token does. -/
theorem claim2_amended :
    (∀ l : List Char,
      (headIs 'A' l && endsWithL "_C".data l) = false →
      (headIs 'U' l && endsWithL "_C".data l) = false →
      firstIsDigit (clean_class_name l) = false) ∧
    (∀ line t n o s : List Char, matchFieldLine line = some (t, n, o) →
      convert_line_to_field line = Except.ok (some s) →
      ∃ ct, s = fieldRender o ct n) := by
  constructor
  · intro l hA hU
    match l with
    | [] => rfl
    | c :: cs =>
      cases hsc : startsCore (c :: cs) with
      | true =>
        have hcl : clean_class_name (c :: cs) = c :: cs := by
          simp [clean_class_name, hsc]
        rw [hcl]
        rcases startsCore_head c cs hsc with rfl | rfl <;> rfl
      | false =>
        cases hd : c.isDigit with
        | true =>
          have hcl : clean_class_name (c :: cs) = auStrip ('C' :: c :: cs) := by
            simp [clean_class_name, hsc, digitFix, hd]
          rw [hcl]
          rfl
        | false =>
          have hcl : clean_class_name (c :: cs) = auStrip (c :: cs) := by
            simp [clean_class_name, hsc, digitFix, hd]
          rw [hcl]
          have hau : auStrip (c :: cs) = c :: cs := by
            simp [auStrip, hA, hU]
          rw [hau]
          simpa [firstIsDigit] using hd
  · intro line t n o s hm hc
    unfold convert_line_to_field at hc
    rw [hm] at hc
    have hc2 : (match convert_type t with
      | Except.error e => Except.error (e : Unit)
      | Except.ok none => Except.ok none
      | Except.ok (some ct) =>
        if ct.isEmpty = true then Except.ok none
        else Except.ok (some (fieldRender o ct n))) = Except.ok (some s) := hc
    clear hc
    rename' hc2 => hc
    cases hct : convert_type t with
    | error e => rw [hct] at hc; simp at hc
    | ok oct =>
      rw [hct] at hc
      cases oct with
      | none => simp at hc
      | some ct =>
        cases he : ct.isEmpty with
        | true => simp [he] at hc
        | false =>
          simp [he] at hc
          exact ⟨ct, hc.symm⟩

/-- Witness for the amended C2: a plain class name keeps a non-digit first
character, and the field line `int32 Health; // 0x10` is rendered with its
name token verbatim. -/
theorem claim2_witness :
    firstIsDigit (clean_class_name "Health".data) = false ∧
      ∃ ct, "    FIELD(0x10, int32_t, Health);\n".data =
        fieldRender "0x10".data ct "Health".data :=
  ⟨ claim2_amended.1 "Health".data rfl rfl,
   claim2_amended.2 "int32 Health; // 0x10".data "int32".data "Health".data
     "0x10".data "    FIELD(0x10, int32_t, Health);\n".data rfl rfl⟩

/-- Counterexample to claim C7: type conversion is not idempotent.  The
token `UAX_C_C` converts (class-name cleanup) to `AX_C`, which is itself a
possible `convert_type` output; converting `AX_C` again strips once more
and returns `X`. -/
theorem claim7_counterexample :
    convert_type "UAX_C_C".data = Except.ok (some "AX_C".data) ∧
      convert_type "AX_C".data = Except.ok (some "X".data) ∧
      "AX_C".data ≠ "X".data :=
  ⟨rfl, rfl, by decide⟩

/-- Claim C7 (amended): idempotence holds on the mapping table's output
range — converting any value of `type_mappings` returns it unchanged — but
not in general: an output that again matches the `A..._C` / `U..._C`
cleanup shape (such as `AX_C`) is rewritten once more when re-converted. -/
theorem claim7_amended :
    ∀ v : List Char, v ∈ type_mappings.map Prod.snd →
      convert_type v = Except.ok (some v) := by
  intro v hv
  fin_cases hv <;> rfl

/-- Witness for the amended C7 at the mapped output `RC::Unreal::FString`. -/
theorem claim7_witness :
    "RC::Unreal::FString".data ∈ type_mappings.map Prod.snd ∧
      convert_type "RC::Unreal::FString".data =
        Except.ok (some "RC::Unreal::FString".data) :=
  ⟨by decide, claim7_amended "RC::Unreal::FString".data (by decide)⟩

/-- Counterexample to claim C3: the class-field extractor
`convert_line_to_field` does not strip the GUID and numeric suffixes — on
the specification's own example line it emits the raw name, not
`TargetActor`. -/
theorem claim3_counterexample :
    convert_line_to_field c3line = Except.ok (some
      "    FIELD(0x0120, AActor*, TargetActor_2_1A2B3C4D5E6F7890ABCDEF1234567890);\n".data) ∧
    "    FIELD(0x0120, AActor*, TargetActor_2_1A2B3C4D5E6F7890ABCDEF1234567890);\n".data ≠
      "    FIELD(0x0120, AActor*, TargetActor);\n".data :=
  ⟨rfl, by decide⟩

/-- Claim C3 (amended): only the struct-field extractor
`convert_struct_field` applies `clean_name`; on the example line it strips
the `_2` numeric suffix and the 32-hex GUID suffix, producing exactly the
claimed output, while `convert_line_to_field` (used for class bodies)
emits the matched name verbatim. -/
theorem claim3_amended :
    convert_struct_field c3line =
      Except.ok (some "    FIELD(0x0120, AActor*, TargetActor);\n".data) ∧
    convert_line_to_field c3line = Except.ok (some
      "    FIELD(0x0120, AActor*, TargetActor_2_1A2B3C4D5E6F7890ABCDEF1234567890);\n".data) :=
  ⟨rfl, rfl⟩

/-- Claim C8: the cross-file struct resolver returns an empty result and
raises nothing when the sibling file is absent, or when it exists but no
line contains `struct <Name>`; and the caller's `if struct_lines:` guard
appends nothing for an empty result. -/
theorem claim8_theorem :
    (∀ sn : List Char, process_struct_file sn none = Except.ok []) ∧
    (∀ (sn : List Char) (lines : List (List Char)),
      lines.all (fun line => !(strContainsL line ("struct ".data ++ sn))) = true →
      process_struct_file sn (some lines) = Except.ok []) ∧
    (∀ out : List (List Char), convert_file_structs_step out [] = out) := by
  refine ⟨fun sn => rfl, ?_, fun out => rfl⟩
  intro sn lines
  induction lines with
  | nil => intro h; rfl
  | cons line rest ih =>
    intro h
    simp only [List.all_cons, Bool.and_eq_true] at h
    obtain ⟨h1, h2⟩ := h
    have h1' : strContainsL line
        ('s' :: 't' :: 'r' :: 'u' :: 'c' :: 't' :: ' ' :: sn) = false := by
      simpa using h1
    show psfLoop sn (line :: rest) false [] = Except.ok []
    simp [psfLoop, h1']
    exact ih h2

/-- Witness for C8: a nonexistent sibling file yields the empty result, and
a sibling file with no `struct Fstruct_Pos` opening line yields the empty
result as well. -/
theorem claim8_witness :
    process_struct_file "Fstruct_Pos".data none = Except.ok [] ∧
      process_struct_file "Fstruct_Pos".data
        (some ["int32 A; // 0x0".data]) = Except.ok [] :=
  ⟨ claim8_theorem.1 "Fstruct_Pos".data,
   claim8_theorem.2.1 "Fstruct_Pos".data ["int32 A; // 0x0".data] (by decide)⟩
